import Mathlib

/-!
Verification of the shared shopping-list worker (`src/worker.js`).

This file shallowly embeds the list read/write handlers of the Cloudflare
worker — `normalizeItem`, the PUT merge engine, `handleGet`, `handlePut` and
the storage round trip — and proves the specified properties about them.

Modelling conventions:
* JS numbers are modelled as `Int` (timestamps and positions are integral in
  practice; the handlers only compare and add them, so the embedding is
  faithful on integral values).  `Number(x) || 0` applied to an integral value
  is the identity (`0` is falsy but maps to `0` again).
* Dynamically-typed JS record fields are modelled with `Option`: `none`
  stands for "absent or of the wrong runtime type" exactly where the source
  probes the type (`typeof x !== 'string'`, `Array.isArray`,
  `Number.isFinite`).
* A JS `Map` is modelled as an association list in insertion order:
  `Map.set` on a present key replaces the value in place, on a fresh key it
  appends.
* JS `Array.prototype.sort` is stable; any stable sort by the same key is
  extensionally identical, so the sort on `pos` is modelled with
  `List.insertionSort` (a stable sort) on the comparator's order.
* A stored value that `JSON.parse` rejects is modelled as `StoredVal.corrupt`;
  the exception escapes the handlers and is turned into a generic 500
  response by the outermost `try`/`catch` of `fetch`.
-/

namespace Worker

/-- A canonical item, the output shape of `normalizeItem`. -/
structure Item where
  id : String
  label : String
  checked : Bool
  tags : List String
  pos : Int
  updated_at : Int
deriving Repr, DecidableEq

/-- A raw JS item record as probed by `normalizeItem`:
`isObject` is whether the value is a non-null object; each field is `none`
when it is absent or not of the probed runtime type (`id`/`label` not a
string, `checked` not a boolean, `tags` not an array — with `none` entries
for non-string elements —, `updated_at`/`pos` such that `Number(·)` is not
finite). -/
structure RawItem where
  isObject : Bool
  id : Option String
  label : Option String
  checked : Option Bool
  tags : Option (List (Option String))
  updated_at : Option Int
  pos : Option Int
deriving Repr, DecidableEq

/-- The tag coercion of `normalizeItem`: keep only entries that are
non-empty strings, in order (`item.tags.filter(...)` over an array,
else `[]`). -/
def filterTags : Option (List (Option String)) → List String
  | some ts => ts.filterMap fun t =>
      match t with
      | some s => if s.length > 0 then some s else none
      | none => none
  | none => []

/-- Embedding of `normalizeItem(item, fallbackPos)` from `src/worker.js`.
`now` stands for `Date.now()` at the moment of normalization.  Errors carry
the thrown `Error` message. -/
def normalizeItem (item : RawItem) (fallbackPos : Int) (now : Int) :
    Except String Item :=
  if item.isObject = false then .error "Invalid item structure"
  else
    match item.id with
    | none => .error "Item missing id"
    | some i =>
      if i = "" then .error "Item missing id"
      else
        match item.label with
        | none => .error "Item missing label"
        | some lab =>
          match item.checked with
          | none => .error "Item missing checked state"
          | some ch =>
            let updatedAt : Int :=
              match item.updated_at with
              | some n => if 0 < n then n else now
              | none => now
            let p : Int :=
              match item.pos with
              | some q => q
              | none => fallbackPos
            .ok { id := i, label := lab, checked := ch,
                  tags := filterTags item.tags, pos := p,
                  updated_at := updatedAt }

/-- The JSON wire form of a canonical item: serializing an `Item` and parsing
it back yields a raw record with every field present and well-typed. -/
def itemToRaw (it : Item) : RawItem :=
  { isObject := true, id := some it.id, label := some it.label,
    checked := some it.checked, tags := some (it.tags.map some),
    updated_at := some it.updated_at, pos := some it.pos }

/-- An id-keyed item map (JS `Map`), as an association list in insertion
order. -/
abbrev ItemMap := List (String × Item)

/-- `Map.get`: the value stored at key `k`, if any. -/
def mapGet : ItemMap → String → Option Item
  | [], _ => none
  | p :: rest, k => if p.1 = k then some p.2 else mapGet rest k

/-- `Map.set`: replace the value in place when the key is present, append
otherwise. -/
def mapSet : ItemMap → String → Item → ItemMap
  | [], k, v => [(k, v)]
  | p :: rest, k, v => if p.1 = k then (k, v) :: rest else p :: mapSet rest k v

/-- Building `incomingItems` in `handlePut`: `body.items.forEach` normalizes
each item with its array index as fallback position and `set`s it into the
map; the surrounding `try` turns the first thrown error into a whole-request
failure. -/
def buildIncoming (items : List RawItem) (idx now : Int) (acc : ItemMap) :
    Except String ItemMap :=
  match items with
  | [] => .ok acc
  | item :: rest =>
    match normalizeItem item idx now with
    | .error e => .error e
    | .ok v => buildIncoming rest (idx + 1) now (mapSet acc v.id v)

/-- Building `existingItems` in `handlePut`: the same `forEach`, but the
surrounding `catch` swallows the first thrown error, so the map keeps
exactly the entries accumulated before the first failing stored item. -/
def buildExisting (items : List RawItem) (idx now : Int) (acc : ItemMap) :
    ItemMap :=
  match items with
  | [] => acc
  | item :: rest =>
    match normalizeItem item idx now with
    | .error _ => acc
    | .ok v => buildExisting rest (idx + 1) now (mapSet acc v.id v)

/-- The `deletedItemIds` coercion in `handlePut`: if the field is an array,
keep only entries that are non-empty strings; otherwise the empty list. -/
def filterDeletedIds : Option (List (Option String)) → List String
  | some l => l.filterMap fun x =>
      match x with
      | some s => if s.length > 0 then some s else none
      | none => none
  | none => []

/-- First merge loop of `handlePut`: for each incoming entry, drop it when
its id is in the deletion set, otherwise resolve against the existing entry
with the same id by `updated_at` (`incoming >= existing` keeps the incoming
record), and keep a brand-new incoming record as is. -/
def mergeLoop1 (incoming existing : ItemMap) (deleted : List String) :
    List Item :=
  incoming.filterMap fun p =>
    if p.1 ∈ deleted then none
    else
      match mapGet existing p.1 with
      | some ex => some (if ex.updated_at ≤ p.2.updated_at then p.2 else ex)
      | none => some p.2

/-- Second merge loop of `handlePut`: preserve every existing entry whose id
was not in the incoming payload (`processedIds` is exactly the incoming key
set) and is not explicitly deleted. -/
def mergeLoop2 (incoming existing : ItemMap) (deleted : List String) :
    List Item :=
  existing.filterMap fun p =>
    if p.1 ∈ incoming.map Prod.fst then none
    else if p.1 ∈ deleted then none
    else some p.2

/-- `mergedItems` before sorting and renumbering. -/
def mergeItems (incoming existing : ItemMap) (deleted : List String) :
    List Item :=
  mergeLoop1 incoming existing deleted ++ mergeLoop2 incoming existing deleted

/-- The sort order used by `mergedItems.sort((a, b) => (a.pos ?? 0) - (b.pos ?? 0))`
(`pos` is always set on normalized items, so `?? 0` never fires). -/
def posLe (a b : Item) : Prop := a.pos ≤ b.pos

instance : DecidableRel posLe := fun a b => by
  unfold posLe; infer_instance

instance : IsTotal Item posLe := ⟨fun a b => Int.le_total a.pos b.pos⟩

instance : IsTrans Item posLe := ⟨fun _ _ _ h h' => le_trans h h'⟩

/-- The stable sort by ascending `pos` (JS `Array.prototype.sort` is stable). -/
def sortByPos (l : List Item) : List Item := List.insertionSort posLe l

/-- `mergedItems.forEach((item, index) => { item.pos = index })`, generalized
over the starting index. -/
def renumberFrom (n : Nat) : List Item → List Item
  | [] => []
  | x :: xs => { x with pos := (n : Int) } :: renumberFrom (n + 1) xs

/-- Renumber `pos` to the dense sequence `0..N-1` in list order. -/
def renumber (l : List Item) : List Item := renumberFrom 0 l

/-- A well-formed list document, the shape `handlePut` writes and responds
with. -/
structure Doc where
  title : String
  items : List Item
  version : Int
  updated_at : Int
deriving Repr, DecidableEq

/-- A stored document as the handlers probe it after `JSON.parse`: `items`
is `none` when not an array, `version` is `none` when not a number
(`typeof`), `title` is `none` when absent (only ever read back verbatim). -/
structure StoredDoc where
  title : Option String
  items : Option (List RawItem)
  version : Option Int
  updated_at : Int
deriving Repr, DecidableEq

/-- A stored KV value: either text that `JSON.parse` rejects, or a parsed
document. -/
inductive StoredVal where
  | corrupt
  | json (d : StoredDoc)
deriving Repr, DecidableEq

/-- The KV slot for one token's key: `none` when no value is stored. -/
abbrev KV := Option StoredVal

/-- `createDefaultDocument()` from `src/worker.js`. -/
def createDefaultDocument (now : Int) : Doc :=
  { title := "Shopping", items := [], version := 0, updated_at := now }

/-- A GET response body: the stored JSON object after the two field fixups
(`items` forced to an array, `version` forced to a number). -/
structure GetResult where
  title : Option String
  items : List RawItem
  version : Int
  updated_at : Int
deriving Repr, DecidableEq

/-- A document in its stored/GET wire form. -/
def docToGetResult (d : Doc) : GetResult :=
  { title := some d.title, items := d.items.map itemToRaw,
    version := d.version, updated_at := d.updated_at }

/-- Outcome of `GET /api/list/:token`: a 200 document, or the 500
`Internal server error` produced by the outermost catch when `JSON.parse`
throws on the stored text. -/
inductive GetOutcome where
  | ok (d : GetResult)
  | internalError
deriving Repr, DecidableEq

/-- Embedding of `handleGet` (plus the outer `try`/`catch` of `fetch`):
missing key yields the default document, a parsed document is returned after
forcing `items` to an array and `version` to a number, and unparseable
stored text escapes as a 500. -/
def handleGet (kv : KV) (now : Int) : GetOutcome :=
  match kv with
  | none => .ok (docToGetResult (createDefaultDocument now))
  | some .corrupt => .internalError
  | some (.json d) =>
      .ok { title := d.title, items := d.items.getD [],
            version := d.version.getD 0, updated_at := d.updated_at }

/-- A parsed PUT body as `handlePut` probes it: `title` is `none` when not a
string, `items` is `none` when not an array, `deletedItemIds` is `none` when
not an array (with `none` entries for non-string elements). -/
structure PutBody where
  title : Option String
  items : Option (List RawItem)
  deletedItemIds : Option (List (Option String))
deriving Repr, DecidableEq

/-- Outcome of `PUT /api/list/:token` on a JSON-parseable body:
`invalidStructure` and `invalidItem` are the 400 responses, `internalError`
is the 500 produced by the outermost catch when the stored text is
unparseable, `ok` is the 200 response carrying the merged document (which is
also what gets written back to the store). -/
inductive PutOutcome where
  | ok (d : Doc)
  | invalidStructure
  | invalidItem (msg : String)
  | internalError
deriving Repr, DecidableEq

/-- The filtered deletion set of a PUT body. -/
def deletedOf (body : PutBody) : List String :=
  filterDeletedIds body.deletedItemIds

/-- The normalized incoming item map of a PUT body (`body.items` is assumed
present; `handlePut` only reaches this after the structure check). -/
def incomingOf (body : PutBody) (now : Int) : Except String ItemMap :=
  buildIncoming (body.items.getD []) 0 now []

/-- The raw stored items `handlePut` reads as its merge base: the parsed
document's `items` forced to an array, or `[]` for a missing document
(`createDefaultDocument`). -/
def existingRawOf (kv : KV) : List RawItem :=
  match kv with
  | some (.json d) => d.items.getD []
  | _ => []

/-- The normalized existing item map (`existingItems`) of a PUT. -/
def existingOf (kv : KV) (now : Int) : ItemMap :=
  buildExisting (existingRawOf kv) 0 now []

/-- The effective existing version: `0` for a missing document or a
`version` field that is not a number, else the stored number
(`existingDoc.version || 0` is the identity on integers). -/
def effVersion (kv : KV) : Int :=
  match kv with
  | some (.json d) => d.version.getD 0
  | _ => 0

/-- Embedding of `handlePut` (plus the outer `try`/`catch` of `fetch`), for
a JSON-parseable request body.  Steps in source order: structure check on
`title`/`items`; normalization of the incoming items (any failure rejects
the whole request before storage is read); storage read (unparseable text
escapes as a 500); normalization of the stored items (first failure keeps
the prefix); merge; stable sort by `pos`; dense renumbering; version bump;
response document.  Note `incomingTitle` is always `body.title`: the
structure check already guaranteed it is a string. -/
def handlePut (body : PutBody) (kv : KV) (now : Int) : PutOutcome :=
  match body.title, body.items with
  | some t, some _ =>
    match incomingOf body now with
    | .error e => .invalidItem e
    | .ok incoming =>
      match kv with
      | some .corrupt => .internalError
      | _ =>
        .ok { title := t,
              items := renumber (sortByPos
                (mergeItems incoming (existingOf kv now) (deletedOf body))),
              version := effVersion kv + 1,
              updated_at := now }
  | _, _ => .invalidStructure

/-- The document `handlePut` writes, in its stored wire form
(`JSON.stringify` then `JSON.parse` restores every field well-typed). -/
def docToStored (d : Doc) : StoredDoc :=
  { title := some d.title, items := some (d.items.map itemToRaw),
    version := some d.version, updated_at := d.updated_at }

/-- The KV slot after a PUT: the merged document on success, unchanged
otherwise (every failure path returns before `kv.put`). -/
def putStore (body : PutBody) (kv : KV) (now : Int) : KV :=
  match handlePut body kv now with
  | .ok d => some (.json (docToStored d))
  | _ => kv

/-- Agreement on every field except `pos` (which the write path renumbers). -/
def eqUpToPos (a b : Item) : Prop :=
  a.id = b.id ∧ a.label = b.label ∧ a.checked = b.checked ∧
    a.tags = b.tags ∧ a.updated_at = b.updated_at

instance (a b : Item) : Decidable (eqUpToPos a b) := by
  unfold eqUpToPos; infer_instance

/-- The invariant of the id-keyed maps built by the PUT handler: keys are
distinct (JS `Map` semantics) and every entry's value carries its key as
`id` (entries are inserted via `set(normalized.id, normalized)`). -/
def MapWF (m : ItemMap) : Prop :=
  (m.map Prod.fst).Nodup ∧ ∀ p ∈ m, p.2.id = p.1

/-- Invariants of every item the worker writes: non-empty id, positive
timestamp (given a positive wall clock), non-empty tag strings. -/
def goodItem (it : Item) : Prop :=
  it.id ≠ "" ∧ 0 < it.updated_at ∧ ∀ s ∈ it.tags, s ≠ ""

/-- The four failure messages `normalizeItem` can throw. -/
def validationMessages : List String :=
  ["Invalid item structure", "Item missing id", "Item missing label",
   "Item missing checked state"]

/-! ### Concrete scenario values used by the closed instance theorems -/

/-- A well-formed stored raw item, id `"a"`, timestamp 5. -/
def exOldRaw : RawItem :=
  ⟨true, some "a", some "Old", some false, none, some 5, some 0⟩

/-- A well-formed incoming raw item, same id `"a"`, newer timestamp 10. -/
def exNewRaw : RawItem :=
  ⟨true, some "a", some "New", some true, none, some 10, some 2⟩

/-- A second well-formed stored raw item, id `"b"`. -/
def exBRaw : RawItem :=
  ⟨true, some "b", some "Bread", some false, none, some 7, some 1⟩

/-- A raw item that fails normalization (its id is not a string). -/
def exBadRaw : RawItem := ⟨true, none, some "x", some true, none, none, none⟩

/-- The canonical forms of the three well-formed raw items above. -/
def exOld : Item := ⟨"a", "Old", false, [], 0, 5⟩

def exNew : Item := ⟨"a", "New", true, [], 2, 10⟩

def exB : Item := ⟨"b", "Bread", false, [], 1, 7⟩

/-- A store holding the single item `"a"` at version 1. -/
def exStore : KV := some (.json ⟨some "T", some [exOldRaw], some 1, 50⟩)

/-- A store holding items `"a"` and `"b"` at version 1. -/
def exStore2 : KV :=
  some (.json ⟨some "T", some [exOldRaw, exBRaw], some 1, 50⟩)

/-- A PUT body sending only item `"a"` (newer), deleting nothing. -/
def exBody : PutBody := ⟨some "L", some [exNewRaw], none⟩

/-- A PUT body sending item `"a"` and explicitly deleting `"b"`. -/
def exBodyDel : PutBody := ⟨some "L", some [exNewRaw], some [some "b"]⟩

/-- A PUT body containing one good and one invalid item. -/
def exBodyBad : PutBody := ⟨some "L", some [exNewRaw, exBadRaw], none⟩

/-- Result of `handlePut exBody exStore 100`. -/
def exDoc : Doc := ⟨"L", [⟨"a", "New", true, [], 0, 10⟩], 2, 100⟩

/-- Result of `handlePut exBody exStore2 100`: `"b"` is preserved. -/
def exDoc2 : Doc :=
  ⟨"L", [⟨"b", "Bread", false, [], 0, 7⟩, ⟨"a", "New", true, [], 1, 10⟩],
    2, 100⟩

/-- Result of repeating `exBody` against the store `exBody` wrote. -/
def exDocV2 : Doc := ⟨"L", [⟨"a", "New", true, [], 0, 10⟩], 3, 200⟩

/-- A parseable stored document whose `items` and `version` fields are
malformed (not an array / not a number). -/
def exMalformedDoc : StoredDoc := ⟨none, none, none, 42⟩

/-- Stored items: a well-formed `"a"`, a corrupted record, a well-formed
`"c"`. -/
def exC7Pre : List RawItem :=
  [⟨true, some "a", some "Milk", some false, none, some 10, some 0⟩]

def exC7Bad : RawItem := ⟨true, none, some "bad", some true, none, none, none⟩

def exC7Post : List RawItem :=
  [⟨true, some "c", some "Eggs", some true, none, some 20, some 1⟩]

/-- A parseable stored document holding `exC7Pre ++ exC7Bad :: exC7Post`. -/
def exC7SD : StoredDoc :=
  ⟨some "T", some (exC7Pre ++ exC7Bad :: exC7Post), some 4, 99⟩

/-- Result of an empty-payload PUT against `exC7SD`: only `"a"` survives. -/
def exC7Doc : Doc := ⟨"L", [⟨"a", "Milk", false, [], 0, 10⟩], 5, 7⟩

/-! ### Well-formedness of the item maps -/

theorem mapGet_mem {m : ItemMap} {k : String} {v : Item}
    (h : mapGet m k = some v) : (k, v) ∈ m := by
  induction m with
  | nil => simp [mapGet] at h
  | cons p rest ih =>
    by_cases hk : p.1 = k
    · simp only [mapGet, if_pos hk] at h
      cases h
      rw [← hk]
      exact List.mem_cons_self _ _
    · simp only [mapGet, if_neg hk] at h
      exact List.mem_cons_of_mem _ (ih h)

theorem mem_keys_mapSet {m : ItemMap} {k k' : String} {v : Item} :
    k' ∈ (mapSet m k v).map Prod.fst ↔ k' ∈ m.map Prod.fst ∨ k' = k := by
  induction m with
  | nil => simp [mapSet]
  | cons p rest ih =>
    by_cases hk : p.1 = k
    · simp [mapSet, hk]
      tauto
    · simp [mapSet, hk, ih]
      tauto

theorem keys_nodup_mapSet {m : ItemMap} {k : String} {v : Item}
    (h : (m.map Prod.fst).Nodup) : ((mapSet m k v).map Prod.fst).Nodup := by
  induction m with
  | nil => simp [mapSet]
  | cons p rest ih =>
    simp only [List.map_cons, List.nodup_cons] at h
    by_cases hk : p.1 = k
    · subst hk
      simpa [mapSet] using h
    · simp only [mapSet, if_neg hk, List.map_cons, List.nodup_cons]
      refine ⟨fun hmem => ?_, ih h.2⟩
      rcases mem_keys_mapSet.mp hmem with hm | hm
      · exact h.1 hm
      · exact hk hm

theorem mem_mapSet {m : ItemMap} {k : String} {v : Item} {q : String × Item}
    (h : q ∈ mapSet m k v) : q = (k, v) ∨ q ∈ m := by
  induction m with
  | nil => simpa [mapSet] using h
  | cons p rest ih =>
    by_cases hk : p.1 = k
    · simp only [mapSet, if_pos hk, List.mem_cons] at h
      rcases h with h | h
      · exact Or.inl h
      · exact Or.inr (List.mem_cons_of_mem _ h)
    · simp only [mapSet, if_neg hk, List.mem_cons] at h
      rcases h with h | h
      · exact Or.inr (by rw [h]; exact List.mem_cons_self _ _)
      · rcases ih h with h' | h'
        · exact Or.inl h'
        · exact Or.inr (List.mem_cons_of_mem _ h')

theorem mapSet_wf {m : ItemMap} {k : String} {v : Item}
    (h : MapWF m) (hv : v.id = k) : MapWF (mapSet m k v) := by
  refine ⟨keys_nodup_mapSet h.1, fun q hq => ?_⟩
  rcases mem_mapSet hq with hq' | hq'
  · rw [hq']; exact hv
  · exact h.2 q hq'

theorem buildIncoming_wf {items : List RawItem} :
    ∀ {idx now : Int} {acc m : ItemMap}, MapWF acc →
      buildIncoming items idx now acc = .ok m → MapWF m := by
  induction items with
  | nil =>
    intro idx now acc m hacc h
    simp only [buildIncoming] at h
    cases h
    exact hacc
  | cons item rest ih =>
    intro idx now acc m hacc h
    simp only [buildIncoming] at h
    cases hn : normalizeItem item idx now with
    | error e => rw [hn] at h; cases h
    | ok v =>
      rw [hn] at h
      exact ih (mapSet_wf hacc rfl) h

theorem buildExisting_wf {items : List RawItem} :
    ∀ {idx now : Int} {acc : ItemMap}, MapWF acc →
      MapWF (buildExisting items idx now acc) := by
  induction items with
  | nil => intro idx now acc hacc; simpa [buildExisting] using hacc
  | cons item rest ih =>
    intro idx now acc hacc
    simp only [buildExisting]
    cases hn : normalizeItem item idx now with
    | error e => exact hacc
    | ok v => exact ih (mapSet_wf hacc rfl)

theorem nilMapWF : MapWF [] := ⟨List.nodup_nil, by simp⟩

theorem incomingOf_wf {body : PutBody} {now : Int} {m : ItemMap}
    (h : incomingOf body now = .ok m) : MapWF m :=
  buildIncoming_wf nilMapWF h

theorem existingOf_wf (kv : KV) (now : Int) : MapWF (existingOf kv now) :=
  buildExisting_wf nilMapWF

/-! ### Merge engine lemmas -/

theorem mergeLoop1_mem_resolved {incoming existing : ItemMap}
    {deleted : List String} {i : String} {inc ex : Item}
    (hp : (i, inc) ∈ incoming) (hdel : i ∉ deleted)
    (hget : mapGet existing i = some ex) :
    (if ex.updated_at ≤ inc.updated_at then inc else ex) ∈
      mergeLoop1 incoming existing deleted := by
  refine List.mem_filterMap.mpr ⟨(i, inc), hp, ?_⟩
  simp [hdel, hget]

theorem mergeLoop1_mem_new {incoming existing : ItemMap}
    {deleted : List String} {i : String} {inc : Item}
    (hp : (i, inc) ∈ incoming) (hdel : i ∉ deleted)
    (hget : mapGet existing i = none) :
    inc ∈ mergeLoop1 incoming existing deleted := by
  refine List.mem_filterMap.mpr ⟨(i, inc), hp, ?_⟩
  simp [hdel, hget]

theorem mergeLoop2_mem {incoming existing : ItemMap}
    {deleted : List String} {i : String} {ex : Item}
    (hp : (i, ex) ∈ existing) (hinc : i ∉ incoming.map Prod.fst)
    (hdel : i ∉ deleted) :
    ex ∈ mergeLoop2 incoming existing deleted := by
  refine List.mem_filterMap.mpr ⟨(i, ex), hp, ?_⟩
  simp [hinc, hdel]

/-- Every item kept by the first merge loop carries the key of the entry it
came from, and that key is an undeleted incoming key. -/
theorem mergeLoop1_mem_elim {incoming existing : ItemMap}
    {deleted : List String} {w : Item}
    (hin : MapWF incoming) (hex : MapWF existing)
    (h : w ∈ mergeLoop1 incoming existing deleted) :
    ∃ p ∈ incoming, w.id = p.1 ∧ p.1 ∉ deleted := by
  rcases List.mem_filterMap.mp h with ⟨p, hp, hw⟩
  by_cases hdel : p.1 ∈ deleted
  · simp [hdel] at hw
  · refine ⟨p, hp, ?_, hdel⟩
    cases hget : mapGet existing p.1 with
    | none =>
      simp only [if_neg hdel, hget] at hw
      cases hw
      exact hin.2 p hp
    | some ex =>
      simp only [if_neg hdel, hget] at hw
      have hexid : ex.id = p.1 := hex.2 _ (mapGet_mem hget)
      by_cases hle : ex.updated_at ≤ p.2.updated_at
      · rw [if_pos hle] at hw; cases hw; exact hin.2 p hp
      · rw [if_neg hle] at hw; cases hw; exact hexid

/-- Every item kept by the second merge loop carries the key of the existing
entry it came from; that key is outside the incoming keys and undeleted. -/
theorem mergeLoop2_mem_elim {incoming existing : ItemMap}
    {deleted : List String} {w : Item}
    (hex : MapWF existing)
    (h : w ∈ mergeLoop2 incoming existing deleted) :
    ∃ p ∈ existing, w = p.2 ∧ w.id = p.1 ∧
      p.1 ∉ incoming.map Prod.fst ∧ p.1 ∉ deleted := by
  rcases List.mem_filterMap.mp h with ⟨p, hp, hw⟩
  by_cases hinc : p.1 ∈ incoming.map Prod.fst
  · simp [mergeLoop2, hinc] at hw
  · by_cases hdel : p.1 ∈ deleted
    · simp [mergeLoop2, hinc, hdel] at hw
    · simp only [mergeLoop2, if_neg hinc, if_neg hdel, Option.some_inj] at hw
      exact ⟨p, hp, hw.symm, by rw [← hw]; exact hex.2 _ hp, hinc, hdel⟩

/-- Ids kept by the first merge loop form a sublist of the incoming keys. -/
theorem mergeLoop1_ids_sublist {incoming existing : ItemMap}
    {deleted : List String}
    (hin : ∀ p ∈ incoming, p.2.id = p.1) (hex : MapWF existing) :
    List.Sublist ((mergeLoop1 incoming existing deleted).map Item.id)
      (incoming.map Prod.fst) := by
  induction incoming with
  | nil => simp [mergeLoop1]
  | cons p rest ih =>
    have hrest := ih fun q hq => hin q (List.mem_cons_of_mem _ hq)
    by_cases hdel : p.1 ∈ deleted
    · simp only [mergeLoop1, List.filterMap_cons, if_pos hdel, List.map_cons]
      exact hrest.trans (List.sublist_cons_self _ _)
    · cases hget : mapGet existing p.1 with
      | none =>
        simp only [mergeLoop1, List.filterMap_cons, if_neg hdel, hget,
          List.map_cons]
        rw [hin p (List.mem_cons_self _ _)]
        exact hrest.cons₂ _
      | some ex =>
        simp only [mergeLoop1, List.filterMap_cons, if_neg hdel, hget,
          List.map_cons]
        have hid : (if ex.updated_at ≤ p.2.updated_at then p.2 else ex).id
            = p.1 := by
          by_cases hle : ex.updated_at ≤ p.2.updated_at
          · rw [if_pos hle]; exact hin p (List.mem_cons_self _ _)
          · rw [if_neg hle]; exact hex.2 _ (mapGet_mem hget)
        rw [hid]
        exact hrest.cons₂ _

/-- Ids kept by the second merge loop form a sublist of the existing keys. -/
theorem mergeLoop2_ids_sublist {incoming existing : ItemMap}
    {deleted : List String} (hex : ∀ p ∈ existing, p.2.id = p.1) :
    List.Sublist ((mergeLoop2 incoming existing deleted).map Item.id)
      (existing.map Prod.fst) := by
  induction existing with
  | nil => simp [mergeLoop2]
  | cons p rest ih =>
    have hrest := ih fun q hq => hex q (List.mem_cons_of_mem _ hq)
    by_cases hinc : p.1 ∈ incoming.map Prod.fst
    · simp only [mergeLoop2, List.filterMap_cons, if_pos hinc, List.map_cons]
      exact hrest.trans (List.sublist_cons_self _ _)
    · by_cases hdel : p.1 ∈ deleted
      · simp only [mergeLoop2, List.filterMap_cons, if_neg hinc, if_pos hdel,
          List.map_cons]
        exact hrest.trans (List.sublist_cons_self _ _)
      · simp only [mergeLoop2, List.filterMap_cons, if_neg hinc, if_neg hdel,
          List.map_cons]
        rw [hex p (List.mem_cons_self _ _)]
        exact hrest.cons₂ _

/-- The merged item list never contains two items with the same id. -/
theorem mergeItems_ids_nodup {incoming existing : ItemMap}
    {deleted : List String}
    (hin : MapWF incoming) (hex : MapWF existing) :
    ((mergeItems incoming existing deleted).map Item.id).Nodup := by
  rw [mergeItems, List.map_append]
  refine List.Nodup.append ?_ ?_ ?_
  · exact (mergeLoop1_ids_sublist hin.2 hex).nodup hin.1
  · exact (mergeLoop2_ids_sublist hex.2).nodup hex.1
  · intro x hx1 hx2
    rcases List.mem_map.mp hx2 with ⟨w, hw, hwid⟩
    rcases mergeLoop2_mem_elim hex hw with ⟨p, _, _, hpid, hpinc, _⟩
    have hxkeys : x ∈ incoming.map Prod.fst :=
      (mergeLoop1_ids_sublist hin.2 hex).subset hx1
    rw [← hwid, hpid] at hxkeys
    exact hpinc hxkeys

/-- No explicitly deleted id survives the merge. -/
theorem mergeItems_deleted_not_mem {incoming existing : ItemMap}
    {deleted : List String} {i : String}
    (hin : MapWF incoming) (hex : MapWF existing) (hi : i ∈ deleted) :
    i ∉ (mergeItems incoming existing deleted).map Item.id := by
  intro hmem
  rcases List.mem_map.mp hmem with ⟨w, hw, hwid⟩
  rcases List.mem_append.mp hw with hw | hw
  · rcases mergeLoop1_mem_elim hin hex hw with ⟨p, _, hid, hdel⟩
    rw [hwid] at hid
    rw [← hid] at hdel
    exact hdel hi
  · rcases mergeLoop2_mem_elim hex hw with ⟨p, _, _, hid, _, hdel⟩
    rw [hwid] at hid
    rw [← hid] at hdel
    exact hdel hi

/-! ### Sorting and renumbering lemmas -/

theorem sortByPos_perm (l : List Item) : (sortByPos l).Perm l :=
  List.perm_insertionSort posLe l

theorem sortByPos_sorted (l : List Item) : List.Sorted posLe (sortByPos l) :=
  List.sorted_insertionSort posLe l

/-- Stability of the `pos` sort: the subsequence of items with any fixed
`pos` value is preserved verbatim (JS `Array.prototype.sort` is stable). -/
theorem sortByPos_stable (l : List Item) (p : Int) :
    (sortByPos l).filter (fun it => it.pos = p) =
      l.filter (fun it => it.pos = p) := by
  set q : Item → Bool := fun it => it.pos = p with hq
  have hpair : (l.filter q).Pairwise posLe := by
    refine List.pairwise_of_forall_mem_list ?_
    intro a ha b hb
    have hap : a.pos = p := by simpa [hq] using (List.mem_filter.mp ha).2
    have hbp : b.pos = p := by simpa [hq] using (List.mem_filter.mp hb).2
    unfold posLe
    rw [hap, hbp]
  have hsub : List.Sublist (l.filter q) (sortByPos l) :=
    List.sublist_insertionSort hpair (List.filter_sublist l)
  have hsub2 : List.Sublist (l.filter q) ((sortByPos l).filter q) := by
    have h2 := hsub.filter q
    simpa [List.filter_filter, Bool.and_self] using h2
  have hperm : ((sortByPos l).filter q).Perm (l.filter q) :=
    (sortByPos_perm l).filter q
  exact (hsub2.eq_of_length hperm.length_eq.symm).symm

theorem renumberFrom_length (n : Nat) (l : List Item) :
    (renumberFrom n l).length = l.length := by
  induction l generalizing n with
  | nil => rfl
  | cons x xs ih => simp [renumberFrom, ih]

theorem renumberFrom_map_pos (n : Nat) (l : List Item) :
    (renumberFrom n l).map Item.pos =
      (List.range' n l.length).map Int.ofNat := by
  induction l generalizing n with
  | nil => rfl
  | cons x xs ih => simp [renumberFrom, List.range', ih]

theorem renumberFrom_map_id (n : Nat) (l : List Item) :
    (renumberFrom n l).map Item.id = l.map Item.id := by
  induction l generalizing n with
  | nil => rfl
  | cons x xs ih => simp [renumberFrom, ih]

theorem renumberFrom_mem_of_mem {x : Item} {l : List Item} (n : Nat)
    (h : x ∈ l) : ∃ w ∈ renumberFrom n l, eqUpToPos w x := by
  induction l generalizing n with
  | nil => cases h
  | cons y ys ih =>
    rcases List.mem_cons.mp h with h | h
    · subst h
      exact ⟨_, List.mem_cons_self _ _, ⟨rfl, rfl, rfl, rfl, rfl⟩⟩
    · rcases ih (n + 1) h with ⟨w, hw, hwx⟩
      exact ⟨w, List.mem_cons_of_mem _ hw, hwx⟩

theorem renumberFrom_mem_elim {w : Item} {l : List Item} {n : Nat}
    (h : w ∈ renumberFrom n l) : ∃ x ∈ l, eqUpToPos w x := by
  induction l generalizing n with
  | nil => cases h
  | cons y ys ih =>
    rcases List.mem_cons.mp h with h | h
    · subst h
      exact ⟨y, List.mem_cons_self _ _, ⟨rfl, rfl, rfl, rfl, rfl⟩⟩
    · rcases ih h with ⟨x, hx, hwx⟩
      exact ⟨x, List.mem_cons_of_mem _ hx, hwx⟩

theorem renumber_map_pos (l : List Item) :
    (renumber l).map Item.pos = (List.range l.length).map Int.ofNat := by
  rw [renumber, renumberFrom_map_pos, List.range_eq_range']

/-- An item survives into the final written list (with renumbered `pos`)
whenever it is in the merge output. -/
theorem mem_renumber_sort {x : Item} {l : List Item} (h : x ∈ l) :
    ∃ w ∈ renumber (sortByPos l), eqUpToPos w x :=
  renumberFrom_mem_of_mem 0 ((sortByPos_perm l).mem_iff.mpr h)

/-! ### Counting lemmas for the merge -/

/-- With an empty deletion set the first loop keeps one item per incoming
entry. -/
theorem mergeLoop1_length (incoming existing : ItemMap) :
    (mergeLoop1 incoming existing []).length = incoming.length := by
  induction incoming with
  | nil => rfl
  | cons p rest ih =>
    simp only [mergeLoop1, List.filterMap_cons, List.not_mem_nil, if_false]
    cases hget : mapGet existing p.1 with
    | none => simpa [mergeLoop1] using ih
    | some ex => simpa [mergeLoop1] using ih

/-- With an empty deletion set the second loop keeps one item per existing
entry whose key is not an incoming key. -/
theorem mergeLoop2_length (incoming existing : ItemMap) :
    (mergeLoop2 incoming existing []).length =
      ((existing.map Prod.fst).filter
        (fun k => !(decide (k ∈ incoming.map Prod.fst)))).length := by
  induction existing with
  | nil => rfl
  | cons p rest ih =>
    by_cases hinc : p.1 ∈ incoming.map Prod.fst
    · simpa [mergeLoop2, List.filterMap_cons, List.filter_cons, hinc] using ih
    · simpa [mergeLoop2, List.filterMap_cons, List.filter_cons, hinc] using ih

/-- When every incoming key already exists in the store and nothing is
deleted, the merge result has exactly as many items as the existing map. -/
theorem mergeItems_length_subset {incoming existing : ItemMap}
    (hin : MapWF incoming) (hex : MapWF existing)
    (hsub : ∀ k ∈ incoming.map Prod.fst, k ∈ existing.map Prod.fst) :
    (mergeItems incoming existing []).length = existing.length := by
  set incKeys := incoming.map Prod.fst with hik
  set exKeys := existing.map Prod.fst with hek
  have hfil : ((exKeys.filter (fun k => decide (k ∈ incKeys))).length)
      = incKeys.length := by
    have hperm : (exKeys.filter (fun k => decide (k ∈ incKeys))).Perm incKeys := by
      refine (List.perm_ext_iff_of_nodup (hex.1.filter _) hin.1).mpr ?_
      intro a
      simp only [List.mem_filter, decide_eq_true_eq]
      exact ⟨fun h => h.2, fun h => ⟨hsub a h, h⟩⟩
    exact hperm.length_eq
  have hsplit := List.length_eq_length_filter_add
    (l := exKeys) (fun k => decide (k ∈ incKeys))
  have hlen2 := mergeLoop2_length incoming existing
  have hlen1 := mergeLoop1_length incoming existing
  have hexlen : exKeys.length = existing.length := by
    rw [hek, List.length_map]
  have hinlen : incKeys.length = incoming.length := by
    rw [hik, List.length_map]
  rw [mergeItems, List.length_append, hlen1, hlen2, ← hik, ← hek]
  omega

/-! ### The shape of a successful PUT -/

/-- Elimination form of `handlePut`: a 200 response determines the request
to be structurally valid, every incoming item to normalize, the store not to
be corrupted, and the response document to be the merged, sorted, renumbered,
version-bumped document. -/
theorem handlePut_ok_elim {body : PutBody} {kv : KV} {now : Int} {d : Doc}
    (h : handlePut body kv now = .ok d) :
    ∃ t inc, body.title = some t ∧ body.items.isSome ∧
      incomingOf body now = .ok inc ∧ kv ≠ some .corrupt ∧
      d = { title := t,
            items := renumber (sortByPos
              (mergeItems inc (existingOf kv now) (deletedOf body))),
            version := effVersion kv + 1, updated_at := now } := by
  cases ht : body.title with
  | none => rw [handlePut, ht] at h; cases hi : body.items <;> rw [hi] at h <;> cases h
  | some t =>
    cases hi : body.items with
    | none => rw [handlePut, ht, hi] at h; cases h
    | some raws =>
      rw [handlePut, ht, hi] at h
      cases hinc : incomingOf body now with
      | error e => rw [hinc] at h; cases h
      | ok inc =>
        rw [hinc] at h
        refine ⟨t, inc, rfl, rfl, rfl, ?_, ?_⟩
        · intro hkv
          rw [hkv] at h
          cases h
        · cases kv with
          | none => cases h; rfl
          | some sv =>
            cases sv with
            | corrupt => cases h
            | json sd => cases h; rfl

/-- Introduction form of `handlePut`: a structurally valid body whose items
all normalize, against a non-corrupt store, yields the merged document. -/
theorem handlePut_ok_intro {body : PutBody} {kv : KV} {now : Int}
    {t : String} {inc : ItemMap}
    (ht : body.title = some t) (hi : body.items.isSome)
    (hinc : incomingOf body now = .ok inc) (hkv : kv ≠ some .corrupt) :
    handlePut body kv now =
      .ok { title := t,
            items := renumber (sortByPos
              (mergeItems inc (existingOf kv now) (deletedOf body))),
            version := effVersion kv + 1, updated_at := now } := by
  cases hraw : body.items with
  | none => rw [hraw] at hi; cases hi
  | some raws =>
    rw [handlePut, ht, hraw, hinc]
    cases kv with
    | none => rfl
    | some sv =>
      cases sv with
      | corrupt => exact absurd rfl hkv
      | json sd => rfl

/-! ### Normalization round trip -/

theorem String.length_pos_of_ne_empty {s : String} (h : s ≠ "") :
    0 < s.length := by
  cases s with
  | mk data =>
    cases data with
    | nil => simp at h
    | cons c cs => simp [String.length]

theorem filterTags_ne_empty {o : Option (List (Option String))} :
    ∀ s ∈ filterTags o, s ≠ "" := by
  cases o with
  | none => simp [filterTags]
  | some ts =>
    intro s hs
    simp only [filterTags] at hs
    rcases List.mem_filterMap.mp hs with ⟨t, _, hts⟩
    cases t with
    | none => simp at hts
    | some u =>
      by_cases hu : u.length > 0
      · simp only [if_pos hu, Option.some_inj] at hts
        subst hts
        intro h0
        rw [h0] at hu
        simp at hu
      · simp [hu] at hts

/-- A successfully normalized item satisfies the write invariants whenever
the wall clock is positive. -/
theorem normalizeItem_good {r : RawItem} {fp now : Int} {it : Item}
    (h : normalizeItem r fp now = .ok it) (hnow : 0 < now) : goodItem it := by
  rw [normalizeItem] at h
  by_cases hobj : r.isObject = false
  · rw [if_pos hobj] at h; cases h
  · rw [if_neg hobj] at h
    cases hid : r.id with
    | none => simp only [hid] at h; cases h
    | some i =>
      simp only [hid] at h
      by_cases hi : i = ""
      · rw [if_pos hi] at h; cases h
      · rw [if_neg hi] at h
        cases hlab : r.label with
        | none => simp only [hlab] at h; cases h
        | some lab =>
          simp only [hlab] at h
          cases hch : r.checked with
          | none => simp only [hch] at h; cases h
          | some ch =>
            simp only [hch] at h
            injection h with h2
            subst h2
            refine ⟨hi, ?_, filterTags_ne_empty⟩
            cases hup : r.updated_at with
            | none => simp only [hup]; exact hnow
            | some n =>
              simp only [hup]
              by_cases hn : 0 < n
              · rw [if_pos hn]; exact hn
              · rw [if_neg hn]; exact hnow

/-- The tag filter is the identity on a list of non-empty strings in wire
form. -/
theorem filterTags_map_some {ts : List String} (h : ∀ s ∈ ts, s ≠ "") :
    filterTags (some (ts.map some)) = ts := by
  induction ts with
  | nil => rfl
  | cons s ss ih =>
    have hs : 0 < s.length :=
      String.length_pos_of_ne_empty (h s (List.mem_cons_self _ _))
    have ih2 := ih fun u hu => h u (List.mem_cons_of_mem _ hu)
    simp only [filterTags, List.map_cons, List.filterMap_cons, if_pos hs]
    simp only [filterTags] at ih2
    rw [ih2]

/-- Normalization is the identity on the wire form of an already written
item: reading back a stored item reproduces it exactly. -/
theorem normalizeItem_itemToRaw {it : Item} (h : goodItem it)
    (fp now : Int) : normalizeItem (itemToRaw it) fp now = .ok it := by
  rcases h with ⟨hid, hup, htags⟩
  simp only [normalizeItem, itemToRaw, if_neg hid, if_pos hup,
    filterTags_map_some htags]
  simp

/-- Length is preserved through the final sort and renumbering. -/
theorem renumber_sort_length (l : List Item) :
    (renumber (sortByPos l)).length = l.length := by
  rw [renumber, renumberFrom_length, sortByPos, List.length_insertionSort]

/-- The final item ids are a permutation of the merge output's ids. -/
theorem renumber_sort_ids_perm (l : List Item) :
    ((renumber (sortByPos l)).map Item.id).Perm (l.map Item.id) := by
  rw [renumber, renumberFrom_map_id]
  exact (sortByPos_perm l).map Item.id

/-! ### Claim theorems -/

/-- C3: deletion precedence.  Every id in the PUT's filtered
`deletedItemIds` is absent from the merged result of a successful PUT, even
if it also occurs among the incoming items and/or the stored items. -/
theorem put_deleted_ids_absent {body : PutBody} {kv : KV} {now : Int}
    {d : Doc} {i : String}
    (hok : handlePut body kv now = .ok d) (hi : i ∈ deletedOf body) :
    i ∉ d.items.map Item.id := by
  rcases handlePut_ok_elim hok with ⟨t, inc, ht, hitems, hinc, hkv, hd⟩
  subst hd
  intro hmem
  have hmerged : i ∈ (mergeItems inc (existingOf kv now)
      (deletedOf body)).map Item.id :=
    (renumber_sort_ids_perm _).mem_iff.mp hmem
  exact mergeItems_deleted_not_mem (incomingOf_wf hinc)
    (existingOf_wf kv now) hi hmerged

/-- C4: post-write structural invariant.  The document a successful PUT
returns (and stores) has `pos` renumbered to the dense sequence `0..N-1` in
list order, contains no two items with the same id, and its item list is the
renumbering of a permutation of the merge output that is sorted by `pos`
ascending and stable (items with equal `pos` keep their merge order). -/
theorem put_result_invariants {body : PutBody} {kv : KV} {now : Int}
    {d : Doc} (hok : handlePut body kv now = .ok d) :
    ∃ inc l, incomingOf body now = .ok inc ∧
      d.items.map Item.pos = (List.range d.items.length).map Int.ofNat ∧
      (d.items.map Item.id).Nodup ∧
      l.Perm (mergeItems inc (existingOf kv now) (deletedOf body)) ∧
      List.Sorted posLe l ∧
      (∀ p : Int, l.filter (fun it => it.pos = p) =
        (mergeItems inc (existingOf kv now) (deletedOf body)).filter
          (fun it => it.pos = p)) ∧
      d.items = renumber l := by
  rcases handlePut_ok_elim hok with ⟨t, inc, ht, hitems, hinc, hkv, hd⟩
  subst hd
  refine ⟨inc, sortByPos (mergeItems inc (existingOf kv now) (deletedOf body)),
    hinc, ?_, ?_, sortByPos_perm _, sortByPos_sorted _, sortByPos_stable _,
    rfl⟩
  · show (renumber _).map Item.pos = _
    rw [renumber_map_pos, renumber, renumberFrom_length]
  · exact ((renumber_sort_ids_perm _).nodup_iff).mpr
      (mergeItems_ids_nodup (incomingOf_wf hinc) (existingOf_wf kv now))

/-- C5: version policy.  A successful PUT writes version
`existing + 1`, where a missing document or a non-numeric stored `version`
field counts as `0`, independently of the merge contents; consequently a
second successful PUT right after bumps the version by exactly 1 again. -/
theorem put_version_policy {body : PutBody} {kv : KV} {now : Int} {d : Doc}
    (hok : handlePut body kv now = .ok d) :
    d.version = effVersion kv + 1 ∧
      ∀ {body2 : PutBody} {now2 : Int} {d2 : Doc},
        handlePut body2 (putStore body kv now) now2 = .ok d2 →
          d2.version = d.version + 1 := by
  rcases handlePut_ok_elim hok with ⟨t, inc, ht, hitems, hinc, hkv, hd⟩
  constructor
  · rw [hd]
  · intro body2 now2 d2 hok2
    rcases handlePut_ok_elim hok2 with ⟨t2, inc2, ht2, hitems2, hinc2, hkv2, hd2⟩
    rw [hd2]
    have hst : putStore body kv now = some (.json (docToStored d)) := by
      rw [putStore, hok]
    rw [hst]
    rw [hd]
    rfl

/-- C9: read-after-write round trip.  A GET performed on the store state
left by a successful PUT (no intervening write) returns exactly the
document the PUT responded with — same title, items, version and
`updated_at` — in its JSON wire form. -/
theorem put_get_round_trip {body : PutBody} {kv : KV} {now now2 : Int}
    {d : Doc} (hok : handlePut body kv now = .ok d) :
    handleGet (putStore body kv now) now2 = .ok (docToGetResult d) := by
  rw [putStore, hok]
  rfl

/-- C10: the stored title is unconditionally overwritten by the request
title on every successful PUT — the conclusion holds for every store state
`kv`, so no timestamp or version comparison against the stored title takes
place, unlike the per-item `updated_at` rule for items. -/
theorem put_title_lww {body : PutBody} {kv : KV} {now : Int} {d : Doc}
    {t : String} (ht : body.title = some t)
    (hok : handlePut body kv now = .ok d) : d.title = t := by
  rcases handlePut_ok_elim hok with ⟨t2, inc, ht2, hitems, hinc, hkv, hd⟩
  rw [ht] at ht2
  cases ht2
  rw [hd]

/-! ### Single-item PUT scenarios (used for the sequential LWW property) -/

/-- A PUT of one item on a fresh token stores that item at position 0 with
version 1. -/
theorem handlePut_single_fresh {t : String} {r : RawItem} {now : Int}
    {A : Item} (hA : normalizeItem r 0 now = .ok A) :
    handlePut ⟨some t, some [r], none⟩ none now =
      .ok { title := t, items := [{ A with pos := 0 }], version := 1,
            updated_at := now } := by
  have hinc : incomingOf ⟨some t, some [r], none⟩ now = .ok [(A.id, A)] := by
    simp only [incomingOf, Option.getD, buildIncoming, hA, mapSet]
  have h := @handlePut_ok_intro ⟨some t, some [r], none⟩ none now t
    [(A.id, A)] rfl rfl hinc (by simp)
  rw [h]
  rfl

/-- A PUT of one item onto a store holding exactly one (well-formed) item
with the same id resolves by `updated_at`, with ties won by the incoming
item, and bumps the version. -/
theorem handlePut_single_second {t t1 : String} {r : RawItem}
    {now u v : Int} {B A : Item}
    (hB : normalizeItem r 0 now = .ok B)
    (hgood : goodItem A) (hid : A.id = B.id) :
    handlePut ⟨some t, some [r], none⟩
        (some (.json (docToStored
          { title := t1, items := [A], version := v, updated_at := u })))
        now =
      .ok { title := t,
            items := [{ (if A.updated_at ≤ B.updated_at then B else A) with
              pos := 0 }],
            version := v + 1, updated_at := now } := by
  have hinc : incomingOf ⟨some t, some [r], none⟩ now = .ok [(B.id, B)] := by
    simp only [incomingOf, Option.getD, buildIncoming, hB, mapSet]
  have hex : existingOf
      (some (.json (docToStored
        { title := t1, items := [A], version := v, updated_at := u }))) now =
      [(A.id, A)] := by
    simp only [existingOf, existingRawOf, docToStored, Option.getD,
      List.map_cons, List.map_nil, buildExisting,
      normalizeItem_itemToRaw hgood, mapSet]
  have h := @handlePut_ok_intro ⟨some t, some [r], none⟩
    (some (.json (docToStored
      { title := t1, items := [A], version := v, updated_at := u })))
    now t [(B.id, B)] rfl rfl hinc (by simp)
  rw [h, hex]
  have hmerge : mergeItems [(B.id, B)] [(A.id, A)]
      (deletedOf ⟨some t, some [r], none⟩) =
      [if A.updated_at ≤ B.updated_at then B else A] := by
    simp only [mergeItems, mergeLoop1, mergeLoop2, deletedOf,
      filterDeletedIds, List.filterMap_cons, List.filterMap_nil,
      List.not_mem_nil, if_false, mapGet, hid, if_pos rfl, List.map_cons,
      List.map_nil, List.mem_cons, List.mem_singleton, if_pos rfl,
      List.append_nil]
    rfl
  rw [hmerge]
  rfl

/-- C1: last-writer-wins per item.  First conjunct: whenever a successful
PUT's incoming map and the stored map both hold an undeleted id, the merge
keeps the record with the larger `updated_at` — the conditional mirrors the
source's `incomingUpdatedAt >= existingUpdatedAt ? incoming : existing`, so
a tie keeps the incoming record — and that record reaches the response
document (up to `pos` renumbering).  Second conjunct: two sequential
single-item PUTs of the same id with distinct positive timestamps onto a
fresh token leave exactly the item with the larger `updated_at`; the
statement is universal in both items, so it covers both submission orders. -/
theorem put_item_lww :
    (∀ {body : PutBody} {kv : KV} {now : Int} {d : Doc} {inc : ItemMap}
        {i : String} {incItem exItem : Item},
      handlePut body kv now = .ok d →
      incomingOf body now = .ok inc →
      mapGet inc i = some incItem →
      mapGet (existingOf kv now) i = some exItem →
      i ∉ deletedOf body →
      (if exItem.updated_at ≤ incItem.updated_at then incItem else exItem) ∈
          mergeItems inc (existingOf kv now) (deletedOf body) ∧
        ∃ w ∈ d.items, eqUpToPos w
          (if exItem.updated_at ≤ incItem.updated_at then incItem
           else exItem)) ∧
    (∀ (i la lb t1 t2 : String) (ca cb : Bool)
        (ta tb : Option (List (Option String))) (pa pb : Option Int)
        (ua ub now1 now2 : Int),
      i ≠ "" → 0 < ua → 0 < ub → ua ≠ ub →
      ∃ d1 d2,
        handlePut ⟨some t1, some [⟨true, some i, some la, some ca, ta,
          some ua, pa⟩], none⟩ none now1 = .ok d1 ∧
        handlePut ⟨some t2, some [⟨true, some i, some lb, some cb, tb,
            some ub, pb⟩], none⟩
          (putStore ⟨some t1, some [⟨true, some i, some la, some ca, ta,
            some ua, pa⟩], none⟩ none now1) now2 = .ok d2 ∧
        ∃ w, d2.items = [w] ∧ w.id = i ∧ w.updated_at = max ua ub ∧
          w.label = (if ua < ub then lb else la) ∧
          w.checked = (if ua < ub then cb else ca) ∧
          w.tags = (if ua < ub then filterTags tb else filterTags ta)) := by
  constructor
  · intro body kv now d inc i incItem exItem hok hinc hgi hge hdel
    rcases handlePut_ok_elim hok with ⟨t, inc2, ht, hitems, hinc2, hkv, hd⟩
    rw [hinc] at hinc2
    injection hinc2 with he
    subst he
    have hmem := List.mem_append_left
      (mergeLoop2 inc (existingOf kv now) (deletedOf body))
      (mergeLoop1_mem_resolved (mapGet_mem hgi) hdel hge)
    refine ⟨hmem, ?_⟩
    rw [hd]
    exact mem_renumber_sort hmem
  · intro i la lb t1 t2 ca cb ta tb pa pb ua ub now1 now2 hi hua hub hne
    have hA : normalizeItem
        ⟨true, some i, some la, some ca, ta, some ua, pa⟩ 0 now1 =
        .ok ⟨i, la, ca, filterTags ta, pa.getD 0, ua⟩ := by
      cases pa with
      | none => simp [normalizeItem, hi, hua]
      | some q => simp [normalizeItem, hi, hua]
    have hB : normalizeItem
        ⟨true, some i, some lb, some cb, tb, some ub, pb⟩ 0 now2 =
        .ok ⟨i, lb, cb, filterTags tb, pb.getD 0, ub⟩ := by
      cases pb with
      | none => simp [normalizeItem, hi, hub]
      | some q => simp [normalizeItem, hi, hub]
    have h1 := handlePut_single_fresh (t := t1) hA
    have hstore : putStore ⟨some t1, some [⟨true, some i, some la, some ca,
        ta, some ua, pa⟩], none⟩ none now1 =
        some (.json (docToStored
          { title := t1, items := [⟨i, la, ca, filterTags ta, 0, ua⟩],
            version := 1, updated_at := now1 })) := by
      rw [putStore, h1]
    have hgood : goodItem ⟨i, la, ca, filterTags ta, 0, ua⟩ :=
      ⟨hi, hua, filterTags_ne_empty⟩
    have h2 := @handlePut_single_second t2 t1
      ⟨true, some i, some lb, some cb, tb, some ub, pb⟩ now2 now1 1
      ⟨i, lb, cb, filterTags tb, pb.getD 0, ub⟩
      ⟨i, la, ca, filterTags ta, 0, ua⟩ hB hgood rfl
    rw [← hstore] at h2
    refine ⟨_, _, h1, h2, ?_⟩
    by_cases hlt : ua < ub
    · have hle : (⟨i, la, ca, filterTags ta, 0, ua⟩ : Item).updated_at ≤
          (⟨i, lb, cb, filterTags tb, pb.getD 0, ub⟩ : Item).updated_at :=
        le_of_lt hlt
      refine ⟨_, rfl, ?_, ?_, ?_, ?_, ?_⟩ <;>
        simp [if_pos hle, if_pos hlt, max_eq_right (le_of_lt hlt)]
    · have hba : ub < ua := lt_of_le_of_ne (not_lt.mp hlt) hne.symm
      have hnle : ¬((⟨i, la, ca, filterTags ta, 0, ua⟩ : Item).updated_at ≤
          (⟨i, lb, cb, filterTags tb, pb.getD 0, ub⟩ : Item).updated_at) :=
        not_le.mpr hba
      refine ⟨_, rfl, ?_, ?_, ?_, ?_, ?_⟩ <;>
        simp [if_neg hnle, if_neg hlt, max_eq_left (le_of_lt hba)]

/-- C2: omission never deletes.  First conjunct: every stored id absent from
the incoming payload and from the deletion set survives the merge with its
record unchanged, and reaches the response document (up to `pos`
renumbering).  Second conjunct: when nothing is deleted, every incoming id
already exists in the store, and the merge base faithfully represents the
stored items (each normalizes, ids distinct — expressed as a length
equation), the item count does not decrease. -/
theorem put_omission_preserves :
    (∀ {body : PutBody} {kv : KV} {now : Int} {d : Doc} {inc : ItemMap}
        {i : String} {ex : Item},
      handlePut body kv now = .ok d →
      incomingOf body now = .ok inc →
      mapGet (existingOf kv now) i = some ex →
      i ∉ inc.map Prod.fst →
      i ∉ deletedOf body →
      ex ∈ mergeItems inc (existingOf kv now) (deletedOf body) ∧
        ∃ w ∈ d.items, eqUpToPos w ex) ∧
    (∀ {body : PutBody} {kv : KV} {now : Int} {d : Doc} {inc : ItemMap},
      handlePut body kv now = .ok d →
      incomingOf body now = .ok inc →
      deletedOf body = [] →
      (∀ k ∈ inc.map Prod.fst, k ∈ (existingOf kv now).map Prod.fst) →
      (existingOf kv now).length = (existingRawOf kv).length →
      (existingRawOf kv).length ≤ d.items.length) := by
  constructor
  · intro body kv now d inc i ex hok hinc hge hni hdel
    rcases handlePut_ok_elim hok with ⟨t, inc2, ht, hitems, hinc2, hkv, hd⟩
    rw [hinc] at hinc2
    injection hinc2 with he
    subst he
    have hmem := List.mem_append_right
      (mergeLoop1 inc (existingOf kv now) (deletedOf body))
      (mergeLoop2_mem (mapGet_mem hge) hni hdel)
    refine ⟨hmem, ?_⟩
    rw [hd]
    exact mem_renumber_sort hmem
  · intro body kv now d inc hok hinc hdel hsub hfaithful
    rcases handlePut_ok_elim hok with ⟨t, inc2, ht, hitems, hinc2, hkv, hd⟩
    rw [hinc] at hinc2
    injection hinc2 with he
    subst he
    have hlen : (mergeItems inc (existingOf kv now) []).length =
        (existingOf kv now).length :=
      mergeItems_length_subset (incomingOf_wf hinc) (existingOf_wf kv now)
        hsub
    rw [hd]
    show (existingRawOf kv).length ≤
      (renumber (sortByPos (mergeItems inc (existingOf kv now)
        (deletedOf body)))).length
    rw [renumber_sort_length, hdel, hlen, hfaithful]

/-! ### Failure propagation for incoming items -/

theorem normalizeItem_error_mem {r : RawItem} {fp now : Int} {e : String}
    (h : normalizeItem r fp now = .error e) : e ∈ validationMessages := by
  rw [normalizeItem] at h
  by_cases hobj : r.isObject = false
  · rw [if_pos hobj] at h
    injection h with h2
    subst h2
    simp [validationMessages]
  · rw [if_neg hobj] at h
    cases hid : r.id with
    | none =>
      simp only [hid] at h
      injection h with h2
      subst h2
      simp [validationMessages]
    | some i =>
      simp only [hid] at h
      by_cases hi : i = ""
      · rw [if_pos hi] at h
        injection h with h2
        subst h2
        simp [validationMessages]
      · rw [if_neg hi] at h
        cases hlab : r.label with
        | none =>
          simp only [hlab] at h
          injection h with h2
          subst h2
          simp [validationMessages]
        | some lab =>
          simp only [hlab] at h
          cases hch : r.checked with
          | none =>
            simp only [hch] at h
            injection h with h2
            subst h2
            simp [validationMessages]
          | some ch => simp only [hch] at h; cases h

/-- Whether `normalizeItem` fails — and with which message — depends only
on the item record, not on the fallback position or the clock. -/
theorem normalizeItem_error_indep {r : RawItem} {fp now fp2 now2 : Int}
    {e : String} (h : normalizeItem r fp now = .error e) :
    normalizeItem r fp2 now2 = .error e := by
  rw [normalizeItem] at h ⊢
  by_cases hobj : r.isObject = false
  · rw [if_pos hobj] at h ⊢; exact h
  · rw [if_neg hobj] at h ⊢
    cases hid : r.id with
    | none => simp only [hid] at h ⊢; exact h
    | some i =>
      simp only [hid] at h ⊢
      by_cases hi : i = ""
      · rw [if_pos hi] at h ⊢; exact h
      · rw [if_neg hi] at h ⊢
        cases hlab : r.label with
        | none => simp only [hlab] at h ⊢; exact h
        | some lab =>
          simp only [hlab] at h ⊢
          cases hch : r.checked with
          | none => simp only [hch] at h ⊢; exact h
          | some ch => simp only [hch] at h; cases h

/-- If any single incoming item fails normalization at its index, building
the incoming map fails (the `forEach` throws at the first bad item). -/
theorem buildIncoming_error_of_bad {items : List RawItem} :
    ∀ {idx now : Int} {acc : ItemMap} {j : Nat} (h : j < items.length)
      {e : String},
      normalizeItem (items.get ⟨j, h⟩) (idx + j) now = .error e →
      ∃ msg, buildIncoming items idx now acc = .error msg := by
  induction items with
  | nil => intro idx now acc j h e hb; exact absurd h (Nat.not_lt_zero j)
  | cons x rest ih =>
    intro idx now acc j h e hb
    rw [buildIncoming]
    cases hn : normalizeItem x idx now with
    | error msg => exact ⟨msg, rfl⟩
    | ok v =>
      cases j with
      | zero =>
        have hb0 : normalizeItem x idx now = .error e :=
          normalizeItem_error_indep hb
        rw [hn] at hb0
        cases hb0
      | succ jj =>
        have h2 : jj < rest.length := Nat.lt_of_succ_lt_succ h
        have hb2 : normalizeItem (rest.get ⟨jj, h2⟩) ((idx + 1) + jj) now =
            .error e := by
          have harith : (idx + 1) + (jj : Int) = idx + ((jj + 1 : Nat) : Int) := by
            push_cast
            ring
          rw [harith]
          exact hb
        exact ih h2 hb2

/-- The message a failed incoming-map build reports is one of the four
`normalizeItem` messages. -/
theorem buildIncoming_error_mem {items : List RawItem} :
    ∀ {idx now : Int} {acc : ItemMap} {e : String},
      buildIncoming items idx now acc = .error e → e ∈ validationMessages := by
  induction items with
  | nil => intro idx now acc e h; rw [buildIncoming] at h; cases h
  | cons x rest ih =>
    intro idx now acc e h
    rw [buildIncoming] at h
    cases hn : normalizeItem x idx now with
    | error msg =>
      rw [hn] at h
      injection h with h2
      subst h2
      exact normalizeItem_error_mem hn
    | ok v =>
      rw [hn] at h
      exact ih h

/-- C8: PUT validation atomicity.  If any single item of a structurally
valid PUT body fails normalization at its index, the whole request is
rejected with a 400 response carrying one of the four validation messages,
and the stored value for the token is left completely unchanged — no write
occurs. -/
theorem put_rejects_bad_item {body : PutBody} {kv : KV} {now : Int}
    {t : String} {raws : List RawItem} {j : Nat} {e : String}
    (ht : body.title = some t) (hitems : body.items = some raws)
    (h : j < raws.length)
    (hbad : normalizeItem (raws.get ⟨j, h⟩) (j : Int) now = .error e) :
    (∃ msg, handlePut body kv now = .invalidItem msg ∧
      msg ∈ validationMessages) ∧
    putStore body kv now = kv := by
  have hb0 : normalizeItem (raws.get ⟨j, h⟩) ((0 : Int) + j) now = .error e := by
    rw [zero_add]
    exact hbad
  obtain ⟨msg, hmsg⟩ := buildIncoming_error_of_bad h hb0
  have hinc : incomingOf body now = .error msg := by
    rw [incomingOf, hitems]
    exact hmsg
  have hput : handlePut body kv now = .invalidItem msg := by
    rw [handlePut, ht, hitems, hinc]
  refine ⟨⟨msg, hput, buildIncoming_error_mem hmsg⟩, ?_⟩
  rw [putStore, hput]

/-! ### Corrupted-store behaviour (C6, C7) -/

/-- C6 counterexample: on a stored value that `JSON.parse` rejects, GET does
NOT return a fresh default document — the parse exception escapes to the
outermost catch and the caller receives the generic 500 error; a
structurally valid PUT against the same stored value also fails with the
500 instead of merging against a fresh document. -/
theorem corrupt_store_counterexample :
    handleGet (some .corrupt) 5 = .internalError ∧
      handleGet (some .corrupt) 5 ≠
        .ok (docToGetResult (createDefaultDocument 5)) ∧
      handlePut ⟨some "L", some [], none⟩ (some .corrupt) 5 =
        .internalError := by
  refine ⟨rfl, ?_, rfl⟩
  decide

/-- C6 amended: recovery as a fresh/defaulted document applies only to a
stored value that parses as JSON with malformed fields — `items` that is
not an array and `version` that is not a number are replaced by `[]` and
`0`, and GET never errors on such a document, nor does PUT ever answer 500
against it.  A stored value that is not parseable as JSON is not recovered:
both GET and PUT (once its body passed validation) fail with the generic
500 internal error response. -/
theorem corrupt_store_amended :
    (∀ (sd : StoredDoc) (now : Int),
      handleGet (some (.json sd)) now =
        .ok { title := sd.title, items := sd.items.getD [],
              version := sd.version.getD 0, updated_at := sd.updated_at }) ∧
    (∀ (body : PutBody) (now : Int) (sd : StoredDoc),
      handlePut body (some (.json sd)) now ≠ .internalError) ∧
    (∀ now : Int, handleGet (some .corrupt) now = .internalError) ∧
    (∀ (body : PutBody) (now : Int) (t : String) (inc : ItemMap),
      body.title = some t → body.items.isSome →
      incomingOf body now = .ok inc →
      handlePut body (some .corrupt) now = .internalError) := by
  refine ⟨fun sd now => rfl, ?_, fun now => rfl, ?_⟩
  · intro body now sd h
    cases ht : body.title with
    | none =>
      rw [handlePut, ht] at h
      cases hi : body.items <;> rw [hi] at h <;> cases h
    | some t =>
      cases hi : body.items with
      | none => rw [handlePut, ht, hi] at h; cases h
      | some raws =>
        rw [handlePut, ht, hi] at h
        cases hinc : incomingOf body now with
        | error e => rw [hinc] at h; cases h
        | ok inc => rw [hinc] at h; cases h
  · intro body now t inc ht hi hinc
    cases hraw : body.items with
    | none => rw [hraw] at hi; cases hi
    | some raws => rw [handlePut, ht, hraw, hinc]

/-- If a stored item at some position fails normalization, the merge base
is built from the stored items strictly before it alone: the `forEach`
throws there and the `catch` keeps only the entries accumulated so far. -/
theorem buildExisting_cons (x : RawItem) (xs : List RawItem)
    (idx now : Int) (acc : ItemMap) :
    buildExisting (x :: xs) idx now acc =
      match normalizeItem x idx now with
      | .error _ => acc
      | .ok v => buildExisting xs (idx + 1) now (mapSet acc v.id v) := rfl

theorem buildExisting_stops_at_bad {pre : List RawItem} :
    ∀ {idx now : Int} {acc : ItemMap} {bad : RawItem} {post : List RawItem}
      {e : String},
      normalizeItem bad (idx + pre.length) now = .error e →
      buildExisting (pre ++ bad :: post) idx now acc =
        buildExisting pre idx now acc := by
  induction pre with
  | nil =>
    intro idx now acc bad post e hbad
    have hb : normalizeItem bad idx now = .error e := by
      simpa using hbad
    rw [List.nil_append, buildExisting_cons, hb]
    rfl
  | cons x rest ih =>
    intro idx now acc bad post e hbad
    have harith : normalizeItem bad ((idx + 1) + (rest.length : Int)) now =
        .error e := by
      have h2 : (idx + 1) + (rest.length : Int) =
          idx + ((x :: rest).length : Int) := by
        simp only [List.length_cons]
        push_cast
        ring
      rw [h2]
      exact hbad
    rw [List.cons_append, buildExisting_cons, buildExisting_cons]
    cases hn : normalizeItem x idx now with
    | error e2 => rfl
    | ok v => exact ih harith

/-- C7 counterexample: the store holds three items — a well-formed "a", a
corrupted record, and a well-formed "c" (which normalizes fine at its
position).  A valid PUT succeeds, but its merge base holds only "a", and
"c" is absent from the result: corruption is not skipped per item — it
aborts the scan, dropping every later stored item. -/
theorem partial_corrupt_counterexample :
    handlePut ⟨some "L", some [], none⟩ (some (.json exC7SD)) 7 =
        .ok exC7Doc ∧
      (normalizeItem ⟨true, some "c", some "Eggs", some true, none, some 20,
        some 1⟩ 2 7).isOk = true ∧
      existingOf (some (.json exC7SD)) 7 =
        [("a", ⟨"a", "Milk", false, [], 0, 10⟩)] ∧
      exC7Doc.items.map Item.id = ["a"] ∧
      "c" ∉ exC7Doc.items.map Item.id := by
  refine ⟨rfl, rfl, rfl, rfl, ?_⟩
  decide

/-- C7 amended: stored items strictly before the first one that fails
normalization are kept in the merge base; the failing item and every stored
item after it are dropped; and the PUT still succeeds (the stored-item
failure is swallowed, never surfaced to the caller). -/
theorem partial_corrupt_amended :
    (∀ (pre post : List RawItem) (bad : RawItem) (e : String)
        (sd : StoredDoc) (now : Int),
      sd.items = some (pre ++ bad :: post) →
      normalizeItem bad (pre.length : Int) now = .error e →
      existingOf (some (.json sd)) now = buildExisting pre 0 now []) ∧
    (∀ (body : PutBody) (now : Int) (t : String) (inc : ItemMap)
        (sd : StoredDoc),
      body.title = some t → body.items.isSome →
      incomingOf body now = .ok inc →
      ∃ d, handlePut body (some (.json sd)) now = .ok d) := by
  constructor
  · intro pre post bad e sd now hsd hbad
    rw [existingOf, existingRawOf, hsd, Option.getD]
    have hb0 : normalizeItem bad ((0 : Int) + pre.length) now = .error e := by
      rw [zero_add]
      exact hbad
    exact buildExisting_stops_at_bad hb0
  · intro body now t inc sd ht hi hinc
    exact ⟨_, handlePut_ok_intro ht hi hinc (by simp)⟩

/-! ### Closed instance theorems (witnesses) -/

/-- C1 witness: both conjuncts of the LWW theorem at concrete inputs — the
stored `"a"` (timestamp 5) loses to the incoming `"a"` (timestamp 10), and
two sequential single-item PUTs of `"a"` with timestamps 10 then 20 leave
the timestamp-20 record. -/
theorem put_item_lww_witness :
    (handlePut exBody exStore 100 = .ok exDoc ∧
      incomingOf exBody 100 = .ok [("a", exNew)] ∧
      mapGet [("a", exNew)] "a" = some exNew ∧
      mapGet (existingOf exStore 100) "a" = some exOld ∧
      "a" ∉ deletedOf exBody ∧
      ((if exOld.updated_at ≤ exNew.updated_at then exNew else exOld) ∈
          mergeItems [("a", exNew)] (existingOf exStore 100)
            (deletedOf exBody) ∧
        ∃ w ∈ exDoc.items, eqUpToPos w
          (if exOld.updated_at ≤ exNew.updated_at then exNew else exOld))) ∧
    (∃ d1 d2,
      handlePut ⟨some "T1", some [⟨true, some "a", some "Milk", some false,
        none, some 10, none⟩], none⟩ none 100 = .ok d1 ∧
      handlePut ⟨some "T2", some [⟨true, some "a", some "Eggs", some true,
          none, some 20, none⟩], none⟩
        (putStore ⟨some "T1", some [⟨true, some "a", some "Milk", some false,
          none, some 10, none⟩], none⟩ none 100) 200 = .ok d2 ∧
      ∃ w, d2.items = [w] ∧ w.id = "a" ∧
        w.updated_at = max (10 : Int) 20 ∧
        w.label = (if (10 : Int) < 20 then "Eggs" else "Milk") ∧
        w.checked = (if (10 : Int) < 20 then true else false) ∧
        w.tags = (if (10 : Int) < 20 then filterTags none
          else filterTags none)) :=
  ⟨⟨rfl, rfl, rfl, rfl, by decide,
    put_item_lww.1
      (rfl : handlePut exBody exStore 100 = .ok exDoc)
      (rfl : incomingOf exBody 100 = .ok [("a", exNew)])
      (rfl : mapGet [("a", exNew)] "a" = some exNew)
      (rfl : mapGet (existingOf exStore 100) "a" = some exOld)
      (by decide : "a" ∉ deletedOf exBody)⟩,
   put_item_lww.2 "a" "Milk" "Eggs" "T1" "T2" false true none none none none
     10 20 100 200 (by decide) (by decide) (by decide) (by decide)⟩

/-- C2 witness: the omitted stored item `"b"` survives a PUT that only
sends `"a"`, and the item count does not drop. -/
theorem put_omission_preserves_witness :
    (handlePut exBody exStore2 100 = .ok exDoc2 ∧
      incomingOf exBody 100 = .ok [("a", exNew)] ∧
      mapGet (existingOf exStore2 100) "b" = some exB ∧
      "b" ∉ ([("a", exNew)] : ItemMap).map Prod.fst ∧
      "b" ∉ deletedOf exBody ∧
      (exB ∈ mergeItems [("a", exNew)] (existingOf exStore2 100)
          (deletedOf exBody) ∧
        ∃ w ∈ exDoc2.items, eqUpToPos w exB)) ∧
    (deletedOf exBody = [] ∧
      (∀ k ∈ ([("a", exNew)] : ItemMap).map Prod.fst,
        k ∈ (existingOf exStore2 100).map Prod.fst) ∧
      (existingOf exStore2 100).length = (existingRawOf exStore2).length ∧
      (existingRawOf exStore2).length ≤ exDoc2.items.length) :=
  ⟨⟨rfl, rfl, rfl, by decide, by decide,
    put_omission_preserves.1
      (rfl : handlePut exBody exStore2 100 = .ok exDoc2)
      (rfl : incomingOf exBody 100 = .ok [("a", exNew)])
      (rfl : mapGet (existingOf exStore2 100) "b" = some exB)
      (by decide : "b" ∉ ([("a", exNew)] : ItemMap).map Prod.fst)
      (by decide : "b" ∉ deletedOf exBody)⟩,
   ⟨rfl, by decide, rfl,
    put_omission_preserves.2
      (rfl : handlePut exBody exStore2 100 = .ok exDoc2)
      (rfl : incomingOf exBody 100 = .ok [("a", exNew)])
      (rfl : deletedOf exBody = [])
      (by decide : ∀ k ∈ ([("a", exNew)] : ItemMap).map Prod.fst,
        k ∈ (existingOf exStore2 100).map Prod.fst)
      (rfl : (existingOf exStore2 100).length =
        (existingRawOf exStore2).length)⟩⟩

/-- C3 witness: a PUT deleting `"b"` leaves no `"b"` in the result even
though `"b"` is stored. -/
theorem put_deleted_ids_absent_witness :
    handlePut exBodyDel exStore2 100 = .ok exDoc ∧
      "b" ∈ deletedOf exBodyDel ∧ "b" ∉ exDoc.items.map Item.id :=
  ⟨rfl, by decide,
    put_deleted_ids_absent
      (rfl : handlePut exBodyDel exStore2 100 = .ok exDoc)
      (by decide : "b" ∈ deletedOf exBodyDel)⟩

/-- C4 witness: the structural invariant at a concrete PUT. -/
theorem put_result_invariants_witness :
    handlePut exBody exStore 100 = .ok exDoc ∧
      ∃ inc l, incomingOf exBody 100 = .ok inc ∧
        exDoc.items.map Item.pos =
          (List.range exDoc.items.length).map Int.ofNat ∧
        (exDoc.items.map Item.id).Nodup ∧
        l.Perm (mergeItems inc (existingOf exStore 100) (deletedOf exBody)) ∧
        List.Sorted posLe l ∧
        (∀ p : Int, l.filter (fun it => it.pos = p) =
          (mergeItems inc (existingOf exStore 100)
            (deletedOf exBody)).filter (fun it => it.pos = p)) ∧
        exDoc.items = renumber l :=
  ⟨rfl, put_result_invariants
    (rfl : handlePut exBody exStore 100 = .ok exDoc)⟩

/-- C5 witness: versions 1 → 2 → 3 across two sequential PUTs. -/
theorem put_version_policy_witness :
    handlePut exBody exStore 100 = .ok exDoc ∧
      exDoc.version = effVersion exStore + 1 ∧
      handlePut exBody (putStore exBody exStore 100) 200 = .ok exDocV2 ∧
      exDocV2.version = exDoc.version + 1 :=
  ⟨rfl,
   (put_version_policy
     (rfl : handlePut exBody exStore 100 = .ok exDoc)).1,
   rfl,
   (put_version_policy
     (rfl : handlePut exBody exStore 100 = .ok exDoc)).2
     (rfl : handlePut exBody (putStore exBody exStore 100) 200 =
       .ok exDocV2)⟩

/-- C6 (amended) witness: field-level recovery on a malformed parsed
document, 500 on unparseable storage, at concrete inputs. -/
theorem corrupt_store_amended_witness :
    handleGet (some (.json exMalformedDoc)) 100 =
        .ok { title := exMalformedDoc.title,
              items := exMalformedDoc.items.getD [],
              version := exMalformedDoc.version.getD 0,
              updated_at := exMalformedDoc.updated_at } ∧
      handlePut exBody (some (.json exMalformedDoc)) 100 ≠ .internalError ∧
      handleGet (some .corrupt) 100 = .internalError ∧
      (exBody.title = some "L" ∧ exBody.items.isSome ∧
        incomingOf exBody 100 = .ok [("a", exNew)] ∧
        handlePut exBody (some .corrupt) 100 = .internalError) :=
  ⟨corrupt_store_amended.1 exMalformedDoc 100,
   corrupt_store_amended.2.1 exBody 100 exMalformedDoc,
   corrupt_store_amended.2.2.1 100,
   rfl, rfl, rfl,
   corrupt_store_amended.2.2.2 exBody 100 "L" [("a", exNew)] rfl rfl rfl⟩

/-- C7 (amended) witness: the merge base for the corrupted store equals the
base built from the prefix before the corrupted record, and a valid PUT
against that store still succeeds. -/
theorem partial_corrupt_amended_witness :
    (exC7SD.items = some (exC7Pre ++ exC7Bad :: exC7Post) ∧
      normalizeItem exC7Bad ((exC7Pre.length : Nat) : Int) 7 =
        .error "Item missing id" ∧
      existingOf (some (.json exC7SD)) 7 = buildExisting exC7Pre 0 7 []) ∧
    (exBody.title = some "L" ∧ exBody.items.isSome ∧
      incomingOf exBody 100 = .ok [("a", exNew)] ∧
      ∃ d, handlePut exBody (some (.json exC7SD)) 100 = .ok d) :=
  ⟨⟨rfl, rfl,
    partial_corrupt_amended.1 exC7Pre exC7Post exC7Bad "Item missing id"
      exC7SD 7 rfl rfl⟩,
   ⟨rfl, rfl, rfl,
    partial_corrupt_amended.2 exBody 100 "L" [("a", exNew)] exC7SD
      rfl rfl rfl⟩⟩

/-- C8 witness: one invalid item in a two-item payload rejects the whole
request with a validation message and leaves the store unchanged. -/
theorem put_rejects_bad_item_witness :
    exBodyBad.title = some "L" ∧
      exBodyBad.items = some [exNewRaw, exBadRaw] ∧
      normalizeItem exBadRaw ((1 : Nat) : Int) 100 =
        .error "Item missing id" ∧
      ((∃ msg, handlePut exBodyBad exStore 100 = .invalidItem msg ∧
        msg ∈ validationMessages) ∧
        putStore exBodyBad exStore 100 = exStore) :=
  ⟨rfl, rfl, rfl,
    put_rejects_bad_item
      (rfl : exBodyBad.title = some "L")
      (rfl : exBodyBad.items = some [exNewRaw, exBadRaw])
      (by decide : (1 : Nat) < ([exNewRaw, exBadRaw] : List RawItem).length)
      rfl⟩

/-- C9 witness: GET right after the concrete PUT returns the PUT's
response document. -/
theorem put_get_round_trip_witness :
    handlePut exBody exStore 100 = .ok exDoc ∧
      handleGet (putStore exBody exStore 100) 200 =
        .ok (docToGetResult exDoc) :=
  ⟨rfl, put_get_round_trip
    (rfl : handlePut exBody exStore 100 = .ok exDoc)⟩

/-- C10 witness: the concrete PUT's response title is the request title. -/
theorem put_title_lww_witness :
    exBody.title = some "L" ∧ handlePut exBody exStore 100 = .ok exDoc ∧
      exDoc.title = "L" :=
  ⟨rfl, rfl,
    put_title_lww (rfl : exBody.title = some "L")
      (rfl : handlePut exBody exStore 100 = .ok exDoc)⟩

end Worker
